import Mathlib

/-!
Shallow embedding of
`src/04-infrastructure-as-code/cdk/typescript/knowledge-base-rag-agent/web-console/utils/validation.ts`.

Strings are modelled as `List Char` (JavaScript's UTF-16 `length` coincides with the
code-point count on all inputs considered here, which are ASCII).  Each JavaScript
regular expression used by the source is hand-compiled into an explicit matcher
`List Char → Option Nat` that, given a suffix of the subject string, returns the
length of the (unique, per JS leftmost/greedy backtracking semantics) match starting
at that position, or `none`.  `String.prototype.replace` with the `g` flag is
modelled by `replaceAll`, which scans left to right, removes each match, and
continues scanning after the removed text, exactly as JS does for an empty
replacement string.  The `do { ... } while (length changed)` loops of the source are
modelled by `untilStable`.  Floating-point division in the special-character-ratio
check is modelled by exact rational division: for the magnitudes involved
(numerator and denominator at most 4000) the float comparison with 0.5 agrees with
the exact one.
-/

/-- Character class of the JS `\s` escape (and of `String.prototype.trim`). -/
def isJsWs (c : Char) : Bool :=
  c = ' ' || c = '\t' || c = '\n' || c = '\r' || c = '\x0b' || c = '\x0c' ||
  c = ' ' || c = ' ' || (' ' ≤ c && c ≤ ' ') ||
  c = ' ' || c = ' ' || c = ' ' || c = ' ' ||
  c = '　' || c = '﻿'

/-- Character class of the JS `\w` escape (used for `\b` word boundaries and `on\w+`). -/
def isWordChar (c : Char) : Bool :=
  ('a' ≤ c && c ≤ 'z') || ('A' ≤ c && c ≤ 'Z') || ('0' ≤ c && c ≤ '9') || c = '_'

/-- The two quote characters of the class `["']` (code 39 is the single quote). -/
def isQuoteChar (c : Char) : Bool :=
  c = '"' || c.toNat = 39

/-- Case-insensitive match of subject character `c` against lowercase pattern character `p`,
modelling the `i` regex flag for the ASCII patterns of the source. -/
def lowerEq (p c : Char) : Bool :=
  c.toLower = p

/-- Length of the maximal leading whitespace run (`\s*` is greedy; in every pattern of the
source it is followed by a non-whitespace literal, so the greedy run is the unique choice). -/
def wsCount (l : List Char) : Nat :=
  (l.takeWhile isJsWs).length

/-- Length of the maximal leading `\w` run. -/
def wordCount (l : List Char) : Nat :=
  (l.takeWhile isWordChar).length

/-- Length of the maximal leading `[^\s>]` run. -/
def valueCount (l : List Char) : Nat :=
  (l.takeWhile (fun c => !isJsWs c && !(c = '>'))).length

/-- Length of the maximal leading `[^"']` run. -/
def notQuoteCount (l : List Char) : Nat :=
  (l.takeWhile (fun c => !isQuoteChar c)).length

/-- Match a sequence of literal pattern characters, contiguously, case-insensitively. -/
def matchLits : List Char → List Char → Option Nat
  | [], _ => some 0
  | _ :: _, [] => none
  | p :: ps, c :: cs =>
    if lowerEq p c then (matchLits ps cs).map (· + 1) else none

/--
Matcher for the scheme pattern built at validation.ts:50-53: every character `ch` of the
scheme (`:` included) is turned into `\s*ch`, so the pattern reads
`\s*j\s*a\s*v\s*a\s*s\s*c\s*r\s*i\s*p\s*t\s*:` for `javascript:`.
-/
def matchScheme : List Char → List Char → Option Nat
  | [], _ => some 0
  | p :: ps, l =>
    let w := wsCount l
    match l.drop w with
    | [] => none
    | c :: cs =>
      if lowerEq p c then (matchScheme ps cs).map (fun n => w + 1 + n) else none

/-- Length consumed by `[^>]*>` (greedy `[^>]*` cannot cross a `>`, so the unique viable
match runs to the first `>`, inclusive); `none` when no `>` remains. -/
def gtScan : List Char → Option Nat
  | [] => none
  | c :: cs => if c = '>' then some 1 else (gtScan cs).map (· + 1)

/-- Matcher for the opening-tag regex `<\s*{tag}\b[^>]*>` of validation.ts:66. -/
def matchOpenTag (tag : List Char) (l : List Char) : Option Nat :=
  match l with
  | [] => none
  | c :: rest =>
    if c = '<' then
      let w := wsCount rest
      match matchLits tag (rest.drop w) with
      | none => none
      | some tl =>
        match (rest.drop w).drop tl with
        | [] => none
        | d :: ds =>
          if isWordChar d then none
          else (gtScan (d :: ds)).map (fun g => 1 + w + tl + g)
    else none

/-- Matcher for the closing-tag regex `<\s*/\s*{tag}\s*>` of validation.ts:68. -/
def matchCloseTag (tag : List Char) (l : List Char) : Option Nat :=
  match l with
  | [] => none
  | c :: rest =>
    if c = '<' then
      let w1 := wsCount rest
      match rest.drop w1 with
      | [] => none
      | d :: r2 =>
        if d = '/' then
          let w2 := wsCount r2
          match matchLits tag (r2.drop w2) with
          | none => none
          | some tl =>
            let r3 := (r2.drop w2).drop tl
            let w3 := wsCount r3
            match r3.drop w3 with
            | [] => none
            | e :: _ => if e = '>' then some (2 + w1 + w2 + tl + w3 + 1) else none
        else none
    else none

/-- Matcher for `<\s*{tag}[^>]*>` (the opening part of the element-body regexes of
validation.ts:83-84; unlike validation.ts:66 it has no `\b`). -/
def matchOpenLoose (tag : List Char) (l : List Char) : Option Nat :=
  match l with
  | [] => none
  | c :: rest =>
    if c = '<' then
      let w := wsCount rest
      match matchLits tag (rest.drop w) with
      | none => none
      | some tl => (gtScan ((rest.drop w).drop tl)).map (fun g => 1 + w + tl + g)
    else none

/-- First position (plus match length) at which `f` matches in some suffix; models the
lazy `[\s\S]*?` which consumes the minimal number of characters before the rest matches. -/
def scanFirst (f : List Char → Option Nat) : List Char → Option Nat
  | [] => none
  | c :: cs =>
    match f (c :: cs) with
    | some n => some n
    | none => (scanFirst f cs).map (· + 1)

/-- Matcher for the whole-element regexes `<\s*{tag}[^>]*>[\s\S]*?<\s*\/\s*{tag}\s*>`
of validation.ts:83-84. -/
def matchBody (tag : List Char) (l : List Char) : Option Nat :=
  match matchOpenLoose tag l with
  | none => none
  | some n => (scanFirst (matchCloseTag tag) (l.drop n)).map (fun k => n + k)

/-- The literal characters `on`. -/
def onLits : List Char := ['o', 'n']

/-- Matcher for the quoted event-handler regex `\s+on\w+\s*=\s*["'][^"']*["']`
of validation.ts:88. -/
def matchHandlerQuoted (l : List Char) : Option Nat :=
  let w := wsCount l
  if w = 0 then none else
  match matchLits onLits (l.drop w) with
  | none => none
  | some _ =>
    let r := l.drop (w + 2)
    let wd := wordCount r
    if wd = 0 then none else
    let r2 := r.drop wd
    let w2 := wsCount r2
    match r2.drop w2 with
    | [] => none
    | e :: r3 =>
      if e = '=' then
        let w3 := wsCount r3
        match r3.drop w3 with
        | [] => none
        | q :: r4 =>
          if isQuoteChar q then
            let v := notQuoteCount r4
            match r4.drop v with
            | [] => none
            | q2 :: _ =>
              if isQuoteChar q2 then some (w + 2 + wd + w2 + 1 + w3 + 1 + v + 1)
              else none
          else none
      else none

/-- Matcher for the bare event-handler regex `\s+on\w+\s*=\s*[^\s>]+`
of validation.ts:89. -/
def matchHandlerBare (l : List Char) : Option Nat :=
  let w := wsCount l
  if w = 0 then none else
  match matchLits onLits (l.drop w) with
  | none => none
  | some _ =>
    let r := l.drop (w + 2)
    let wd := wordCount r
    if wd = 0 then none else
    let r2 := r.drop wd
    let w2 := wsCount r2
    match r2.drop w2 with
    | [] => none
    | e :: r3 =>
      if e = '=' then
        let w3 := wsCount r3
        let v := valueCount (r3.drop w3)
        if v = 0 then none else some (w + 2 + wd + w2 + 1 + w3 + v)
      else none

/--
`String.prototype.replace` with a global regex and empty replacement: scan left to
right, drop each match, continue scanning after it.  The fuel argument makes the
recursion structural; since every matcher of the source only returns matches of
length at least one, fuel equal to the list length always suffices.
-/
def replaceAllF (m : List Char → Option Nat) : Nat → List Char → List Char
  | 0, l => l
  | _ + 1, [] => []
  | fuel + 1, c :: cs =>
    match m (c :: cs) with
    | some (n + 1) => replaceAllF m fuel (cs.drop n)
    | _ => c :: replaceAllF m fuel cs

/-- Remove every match of `m` from `l`, in one left-to-right pass. -/
def replaceAll (m : List Char → Option Nat) (l : List Char) : List Char :=
  replaceAllF m l.length l

/--
The `do { previousLength = s.length; s = f(s) } while (s.length != previousLength)`
loops of validation.ts:57-60, 71-75 and 80-85.  Each pass with an empty replacement
either leaves the string unchanged or strictly shortens it, so fuel `length + 1`
always suffices for the loop to reach its exit condition.
-/
def untilStableF (f : List Char → List Char) : Nat → List Char → List Char
  | 0, l => l
  | fuel + 1, l =>
    if (f l).length = l.length then f l else untilStableF f fuel (f l)

/-- Run `f` at least once and repeat until the length stops changing. -/
def untilStable (f : List Char → List Char) (l : List Char) : List Char :=
  untilStableF f (l.length + 1) l

/-- validation.ts:9-14. -/
def DANGEROUS_SCHEMES : List (List Char) :=
  ["javascript:".data, "vbscript:".data, "data:".data, "file:".data]

/-- validation.ts:19-34. -/
def DANGEROUS_TAGS : List (List Char) :=
  ["script".data, "iframe".data, "object".data, "embed".data, "applet".data,
   "meta".data, "link".data, "style".data, "form".data, "input".data,
   "button".data, "textarea".data, "select".data, "base".data]

/-- The characters of `script`. -/
def scriptLits : List Char := "script".data

/-- The characters of `style`. -/
def styleLits : List Char := "style".data

/-- One substitution of the scheme loop body (validation.ts:59). -/
def schemeStep (sch : List Char) (l : List Char) : List Char :=
  replaceAll (matchScheme sch) l

/-- The per-scheme `do`/`while` loop of validation.ts:56-60. -/
def schemePass (sch : List Char) (l : List Char) : List Char :=
  untilStable (schemeStep sch) l

/-- The `for (const scheme of DANGEROUS_SCHEMES)` loop of validation.ts:48-61. -/
def schemesStage (l : List Char) : List Char :=
  DANGEROUS_SCHEMES.foldl (fun s sch => schemePass sch s) l

/-- One iteration of the tag loop body: open-tag then close-tag substitution
(validation.ts:73-74). -/
def tagStep (tag : List Char) (l : List Char) : List Char :=
  replaceAll (matchCloseTag tag) (replaceAll (matchOpenTag tag) l)

/-- The per-tag `do`/`while` loop of validation.ts:70-75. -/
def tagPass (tag : List Char) (l : List Char) : List Char :=
  untilStable (tagStep tag) l

/-- The `for (const tag of DANGEROUS_TAGS)` loop of validation.ts:64-76. -/
def tagsStage (l : List Char) : List Char :=
  DANGEROUS_TAGS.foldl (fun s tag => tagPass tag s) l

/-- One iteration of the element-body loop: script-body then style-body substitution
(validation.ts:83-84). -/
def bodyStep (l : List Char) : List Char :=
  replaceAll (matchBody styleLits) (replaceAll (matchBody scriptLits) l)

/-- The element-body `do`/`while` loop of validation.ts:79-85. -/
def bodyPass (l : List Char) : List Char :=
  untilStable bodyStep l

/-- The two single (unlooped) event-handler substitutions of validation.ts:88-89. -/
def handlerStage (l : List Char) : List Char :=
  replaceAll matchHandlerBare (replaceAll matchHandlerQuoted l)

/-- The `String.prototype.trim` call of validation.ts:91. -/
def trimList (l : List Char) : List Char :=
  ((l.dropWhile isJsWs).reverse.dropWhile isJsWs).reverse

/-- The whole sanitization pipeline of validation.ts:45-91, on character lists. -/
def sanitizeList (l : List Char) : List Char :=
  trimList (handlerStage (bodyPass (tagsStage (schemesStage l))))

/-- The function `sanitizeInput` (validation.ts:42-92); `!input` is true exactly for the empty string. -/
def sanitizeInput (input : String) : String :=
  if input = "" then "" else String.mk (sanitizeList input.data)

/-- The `{ valid, error? }` result shape of all validators. -/
structure ValidationResult where
  valid : Bool
  error : Option String
deriving DecidableEq, Repr

/-- Line terminators, which the JS regex `.` does not match. -/
def isLineTerm (c : Char) : Bool :=
  c = '\n' || c = '\r' || c = ' ' || c = ' '

/-- The allowed class of the special-character check: `[a-zA-Z0-9\s.,!?;:()\-'"]`
(validation.ts:113; code 39 is the single quote). -/
def isChatAllowed (c : Char) : Bool :=
  ('a' ≤ c && c ≤ 'z') || ('A' ≤ c && c ≤ 'Z') || ('0' ≤ c && c ≤ '9') ||
  isJsWs c || c = '.' || c = ',' || c = '!' || c = '?' || c = ';' || c = ':' ||
  c = '(' || c = ')' || c = '-' || c.toNat = 39 || c = '"'

/-- Number of characters matching `[^a-zA-Z0-9\s.,!?;:()\-'"]` (validation.ts:113). -/
def specialCount (l : List Char) : Nat :=
  (l.filter (fun c => !isChatAllowed c)).length

/-- The repeated-character regex `(.)\1{10,}` (validation.ts:121): some character that
is not a line terminator (the JS `.`), followed by at least ten copies of itself. -/
def hasRepeatedChars : List Char → Bool
  | [] => false
  | c :: cs =>
    (!isLineTerm c && decide (cs.take 10 = List.replicate 10 c)) || hasRepeatedChars cs

/-- The function `validateChatInput` (validation.ts:99-127).  The source computes
`specialCharCount / sanitized.length > 0.5` in 64-bit floating point; both operands are
at most 4000 at this point (the length check has already passed), where the float
comparison against 0.5 coincides with the exact rational one, which in turn is the
integer comparison `length < 2 * specialCharCount`; the agreement with the rational
formulation is proved in `ratioCond_iff` below. -/
def validateChatInput (input : String) : ValidationResult :=
  let sanitized := sanitizeInput input
  if sanitized = "" ∨ (trimList sanitized.data).length = 0 then
    ⟨false, some "Message cannot be empty"⟩
  else if 4000 < sanitized.data.length then
    ⟨false, some "Message too long (maximum 4000 characters)"⟩
  else if sanitized.data.length < 2 * specialCount sanitized.data then
    ⟨false, some "Message contains too many special characters"⟩
  else if hasRepeatedChars sanitized.data then
    ⟨false, some "Message contains excessive repeated characters"⟩
  else ⟨true, none⟩

/-- The username class `[a-zA-Z0-9._-]` (validation.ts:148). -/
def isUserChar (c : Char) : Bool :=
  ('a' ≤ c && c ≤ 'z') || ('A' ≤ c && c ≤ 'Z') || ('0' ≤ c && c ≤ '9') ||
  c = '.' || c = '_' || c = '-'

/-- The test `/^[a-zA-Z0-9._-]+$/.test(s)`: nonempty and every character in the class. -/
def usernameTest (l : List Char) : Bool :=
  !l.isEmpty && l.all isUserChar

/-- The function `validateUsername` (validation.ts:134-154). -/
def validateUsername (username : String) : ValidationResult :=
  if username = "" ∨ (trimList username.data).length = 0 then
    ⟨false, some "Username is required"⟩
  else if username.data.length < 3 then
    ⟨false, some "Username must be at least 3 characters"⟩
  else if 50 < username.data.length then
    ⟨false, some "Username must be less than 50 characters"⟩
  else if usernameTest username.data = false then
    ⟨false, some "Username can only contain letters, numbers, dots, underscores, and hyphens"⟩
  else ⟨true, none⟩

/-- The function `validatePassword` (validation.ts:161-175). -/
def validatePassword (password : String) : ValidationResult :=
  if password = "" ∨ password.data.length = 0 then
    ⟨false, some "Password is required"⟩
  else if password.data.length < 8 then
    ⟨false, some "Password must be at least 8 characters"⟩
  else if 128 < password.data.length then
    ⟨false, some "Password must be less than 128 characters"⟩
  else ⟨true, none⟩

/-- The class `[^\s@]` of the email regex. -/
def okEmailChar (c : Char) : Bool :=
  !isJsWs c && !(c = '@')

/-- Split at the first `@`: `some (before, after)` when the list contains an `@`. -/
def atSplit : List Char → Option (List Char × List Char)
  | [] => none
  | c :: cs =>
    if c = '@' then some ([], cs) else (atSplit cs).map (fun p => (c :: p.1, p.2))

/-- Some `.` occurs at a position that is not the last of the list. -/
def dotNotLast : List Char → Bool
  | [] => false
  | c :: cs => (decide (c = '.') && !cs.isEmpty) || dotNotLast cs

/-- Some `.` occurs at a position of the list that is neither first nor last. -/
def interiorDot : List Char → Bool
  | [] => false
  | _ :: rest => dotNotLast rest

/--
The test `/^[^\s@]+@[^\s@]+\.[^\s@]+$/.test(s)` (validation.ts:188): since `[^\s@]`
cannot cross an `@`, the leading `[^\s@]+` must end at the first `@`; the tail after
the `@` must consist of class characters and contain a `.` splitting it into two
nonempty halves.
-/
def emailMatches (l : List Char) : Bool :=
  match atSplit l with
  | none => false
  | some (a, d) =>
    !a.isEmpty && a.all okEmailChar && d.all okEmailChar && interiorDot d

/-- The function `validateEmail` (validation.ts:182-198). -/
def validateEmail (email : String) : ValidationResult :=
  if email = "" ∨ (trimList email.data).length = 0 then
    ⟨false, some "Email is required"⟩
  else if emailMatches email.data = false then
    ⟨false, some "Invalid email format"⟩
  else if 254 < email.data.length then
    ⟨false, some "Email is too long"⟩
  else ⟨true, none⟩

/-! ### Predicates used to state the claims -/

/-- No match of `m` starts at any position of `l`. -/
def NoMatch (m : List Char → Option Nat) (l : List Char) : Prop :=
  ∀ i : Nat, m (l.drop i) = none

/-- Executable variant of `NoMatch` (positions beyond the length give the empty suffix,
which is covered by the position `l.length` of the range). -/
def noMatchB (m : List Char → Option Nat) (l : List Char) : Bool :=
  (List.range (l.length + 1)).all fun i => (m (l.drop i)).isNone

/-- No dangerous-scheme pattern matches anywhere in `l`. -/
def schemesClean (l : List Char) : Bool :=
  DANGEROUS_SCHEMES.all fun sch => noMatchB (matchScheme sch) l

/-- No pattern of any of the four removal categories matches anywhere in `l`. -/
def cleanB (l : List Char) : Bool :=
  schemesClean l &&
  (DANGEROUS_TAGS.all fun t => noMatchB (matchOpenTag t) l && noMatchB (matchCloseTag t) l) &&
  noMatchB (matchBody scriptLits) l && noMatchB (matchBody styleLits) l &&
  noMatchB matchHandlerQuoted l && noMatchB matchHandlerBare l

/-- Whether `pat` occurs (case-insensitively, contiguously) as a substring of `l`. -/
def hasSubCI (pat l : List Char) : Bool :=
  l.tails.any fun t => (matchLits pat t).isSome

/-- Rule 4 of the chat validator as the claim words it, with no restriction on the
repeated character: some character occurs in an unbroken run of length at least 11. -/
def specRunAny (l : List Char) : Bool :=
  l.tails.any fun t =>
    match t with
    | [] => false
    | c :: rest => decide (rest.take 10 = List.replicate 10 c)

/-- Rule 4 as amended: some character that is not a line terminator occurs in an
unbroken run of length at least 11. -/
def specRun (l : List Char) : Bool :=
  l.tails.any fun t =>
    match t with
    | [] => false
    | c :: rest => !isLineTerm c && decide (rest.take 10 = List.replicate 10 c)

/-- The chat validator as the claim words it (with rule 4 amended): ordered,
short-circuiting rules evaluated on the sanitized string. -/
def specChatInput (input : String) : ValidationResult :=
  let s := (sanitizeInput input).data
  if trimList s = [] then ⟨false, some "Message cannot be empty"⟩
  else if 4000 < s.length then ⟨false, some "Message too long (maximum 4000 characters)"⟩
  else if (1 : ℚ) / 2 < (specialCount s : ℚ) / (s.length : ℚ) then
    ⟨false, some "Message contains too many special characters"⟩
  else if specRun s then ⟨false, some "Message contains excessive repeated characters"⟩
  else ⟨true, none⟩

/-- The username validator as the claim words it. -/
def specUsernameV (s : String) : ValidationResult :=
  if trimList s.data = [] then ⟨false, some "Username is required"⟩
  else if s.data.length < 3 then ⟨false, some "Username must be at least 3 characters"⟩
  else if 50 < s.data.length then ⟨false, some "Username must be less than 50 characters"⟩
  else if s.data.any (fun c => !isUserChar c) then
    ⟨false, some "Username can only contain letters, numbers, dots, underscores, and hyphens"⟩
  else ⟨true, none⟩

/-- The password validator as the claim words it. -/
def specPasswordV (s : String) : ValidationResult :=
  if s.data = [] then ⟨false, some "Password is required"⟩
  else if s.data.length < 8 then ⟨false, some "Password must be at least 8 characters"⟩
  else if 128 < s.data.length then ⟨false, some "Password must be less than 128 characters"⟩
  else ⟨true, none⟩

/-- The email shape exactly as claim C8 words it: a nonempty no-whitespace local part,
an `@`, and a nonempty no-whitespace domain containing at least one `.` after the `@`. -/
def specEmailShapeLoose (l : List Char) : Bool :=
  (List.range l.length).any fun i =>
    match l.drop i with
    | [] => false
    | c :: d =>
      decide (c = '@') && !(l.take i).isEmpty && (l.take i).all (fun x => !isJsWs x) &&
      !d.isEmpty && d.all (fun x => !isJsWs x) && d.contains '.'

/-- The email shape as amended: local part and domain contain neither whitespace nor `@`,
and the domain splits at some `.` into two nonempty halves. -/
def specEmailShape (l : List Char) : Bool :=
  (List.range l.length).any fun i =>
    match l.drop i with
    | [] => false
    | c :: d =>
      decide (c = '@') && !(l.take i).isEmpty && (l.take i).all okEmailChar &&
      d.all okEmailChar &&
      ((List.range d.length).any fun j =>
        match d.drop j with
        | [] => false
        | e :: c2 => decide (e = '.') && !(d.take j).isEmpty && !c2.isEmpty)

/-- The email validator as the claim words it, with the shape amended to the regex shape. -/
def specEmailV (s : String) : ValidationResult :=
  if trimList s.data = [] then ⟨false, some "Email is required"⟩
  else if specEmailShape s.data = false then ⟨false, some "Invalid email format"⟩
  else if 254 < s.data.length then ⟨false, some "Email is too long"⟩
  else ⟨true, none⟩

/-- Common characterization of the email shape: a nonempty all-class local part, `@`,
then a domain that splits at some `.` into two nonempty all-class halves. -/
def EmailShape (l : List Char) : Prop :=
  ∃ a b c : List Char,
    l = a ++ '@' :: (b ++ '.' :: c) ∧ a ≠ [] ∧ b ≠ [] ∧ c ≠ [] ∧
    (∀ x ∈ a, okEmailChar x = true) ∧ (∀ x ∈ b ++ '.' :: c, okEmailChar x = true)

/-! ### Generic lemmas about the replacement engine -/

theorem replaceAllF_length_le (m : List Char → Option Nat) :
    ∀ fuel l, (replaceAllF m fuel l).length ≤ l.length := by
  intro fuel
  induction fuel with
  | zero => intro l; exact Nat.le_refl _
  | succ n ih =>
    intro l
    cases l with
    | nil => exact Nat.le_refl _
    | cons c cs =>
      rw [replaceAllF]
      split
      · next n2 heq =>
        calc (replaceAllF m n (cs.drop n2)).length ≤ (cs.drop n2).length := ih _
          _ ≤ cs.length := by simp [List.length_drop]
          _ ≤ (c :: cs).length := by simp
      · simpa using Nat.succ_le_succ (ih cs)

theorem replaceAll_length_le (m : List Char → Option Nat) (l : List Char) :
    (replaceAll m l).length ≤ l.length :=
  replaceAllF_length_le m l.length l

theorem replaceAllF_eq_or_lt (m : List Char → Option Nat) :
    ∀ fuel l, replaceAllF m fuel l = l ∨ (replaceAllF m fuel l).length < l.length := by
  intro fuel
  induction fuel with
  | zero => intro l; exact Or.inl rfl
  | succ n ih =>
    intro l
    cases l with
    | nil => exact Or.inl rfl
    | cons c cs =>
      rw [replaceAllF]
      split
      · next n2 heq =>
        right
        have h1 := replaceAllF_length_le m n (cs.drop n2)
        have h2 : (cs.drop n2).length ≤ cs.length := by simp [List.length_drop]
        simp only [List.length_cons]
        omega
      · rcases ih cs with h1 | h1
        · exact Or.inl (by rw [h1])
        · right; simp only [List.length_cons]; omega

theorem replaceAll_eq_or_lt (m : List Char → Option Nat) (l : List Char) :
    replaceAll m l = l ∨ (replaceAll m l).length < l.length :=
  replaceAllF_eq_or_lt m l.length l

theorem replaceAllF_of_noMatch (m : List Char → Option Nat) :
    ∀ fuel l, NoMatch m l → replaceAllF m fuel l = l := by
  intro fuel
  induction fuel with
  | zero => intro l _; rfl
  | succ n ih =>
    intro l h
    cases l with
    | nil => rfl
    | cons c cs =>
      have h0 : m (c :: cs) = none := by simpa using h 0
      rw [replaceAllF]
      split
      · next n2 heq => rw [h0] at heq; exact absurd heq (by simp)
      · exact congrArg (c :: ·) (ih cs fun i => by simpa using h (i + 1))

theorem replaceAll_of_noMatch (m : List Char → Option Nat) (l : List Char)
    (h : NoMatch m l) : replaceAll m l = l :=
  replaceAllF_of_noMatch m l.length l h

theorem untilStableF_fix (f : List Char → List Char)
    (hf : ∀ x, f x = x ∨ (f x).length < x.length) :
    ∀ fuel l, l.length < fuel → f (untilStableF f fuel l) = untilStableF f fuel l := by
  intro fuel
  induction fuel with
  | zero => intro l h; omega
  | succ n ih =>
    intro l h
    rw [untilStableF]
    split
    · next hlen =>
      rcases hf l with h1 | h1
      · rw [h1]; exact h1
      · omega
    · next hlen =>
      rcases hf l with h1 | h1
      · exact absurd (by rw [h1]) hlen
      · exact ih (f l) (by omega)

theorem untilStable_fix (f : List Char → List Char)
    (hf : ∀ x, f x = x ∨ (f x).length < x.length) (l : List Char) :
    f (untilStable f l) = untilStable f l :=
  untilStableF_fix f hf (l.length + 1) l (Nat.lt_succ_self _)

theorem untilStable_of_id (f : List Char → List Char) (l : List Char) (h : f l = l) :
    untilStable f l = l := by
  rw [untilStable, untilStableF, h, if_pos rfl]

theorem comp_eq_or_lt (m1 m2 : List Char → Option Nat) (l : List Char) :
    replaceAll m2 (replaceAll m1 l) = l ∨ (replaceAll m2 (replaceAll m1 l)).length < l.length := by
  rcases replaceAll_eq_or_lt m1 l with h1 | h1
  · rw [h1]; exact replaceAll_eq_or_lt m2 l
  · exact Or.inr (lt_of_le_of_lt (replaceAll_length_le m2 _) h1)

/-! ### Fixed-point properties of the looped passes -/

theorem schemePass_fix (sch : List Char) (l : List Char) :
    schemeStep sch (schemePass sch l) = schemePass sch l :=
  untilStable_fix _ (fun x => replaceAll_eq_or_lt _ x) l

theorem tagPass_fix (tag : List Char) (l : List Char) :
    tagStep tag (tagPass tag l) = tagPass tag l :=
  untilStable_fix _ (fun x => comp_eq_or_lt _ _ x) l

theorem bodyPass_fix (l : List Char) :
    bodyStep (bodyPass l) = bodyPass l :=
  untilStable_fix _ (fun x => comp_eq_or_lt _ _ x) l

/-! ### Lemmas about trimming -/

theorem trimList_eq_rdrop (l : List Char) :
    trimList l = List.rdropWhile isJsWs (List.dropWhile isJsWs l) := rfl

theorem dropWhile_head_false (p : Char → Bool) :
    ∀ (l r : List Char) (c : Char), l.dropWhile p = c :: r → p c = false := by
  intro l
  induction l with
  | nil => intro r c h; simp [List.dropWhile] at h
  | cons a as ih =>
    intro r c h
    rw [List.dropWhile_cons] at h
    by_cases hp : p a = true
    · rw [if_pos hp] at h; exact ih r c h
    · rw [if_neg hp] at h
      cases h
      simpa using hp

theorem trimList_idem (l : List Char) : trimList (trimList l) = trimList l := by
  rw [trimList_eq_rdrop, trimList_eq_rdrop]
  have hd : List.dropWhile isJsWs (List.rdropWhile isJsWs (List.dropWhile isJsWs l)) =
      List.rdropWhile isJsWs (List.dropWhile isJsWs l) := by
    cases hA : List.rdropWhile isJsWs (List.dropWhile isJsWs l) with
    | nil => rfl
    | cons c cs =>
      obtain ⟨t, ht⟩ := List.rdropWhile_prefix isJsWs (List.dropWhile isJsWs l)
      have hdw : List.dropWhile isJsWs l = c :: (cs ++ t) := by
        rw [← ht, hA, List.cons_append]
      have hc := dropWhile_head_false isJsWs l _ c hdw
      rw [List.dropWhile_cons, if_neg (by simp [hc])]
  rw [hd, List.rdropWhile_idempotent]

theorem trimList_eq_nil_iff (l : List Char) :
    trimList l = [] ↔ ∀ c ∈ l, isJsWs c = true := by
  rw [trimList_eq_rdrop, List.rdropWhile_eq_nil_iff]
  constructor
  · intro h c hc
    rcases List.mem_append.mp (by rw [List.takeWhile_append_dropWhile (p := isJsWs)]; exact hc) with h1 | h1
    · exact List.mem_takeWhile_imp h1
    · exact h c h1
  · intro h c hc
    exact h c ((List.dropWhile_suffix isJsWs).subset hc)

theorem dropWhile_eq_self_of_all (p : Char → Bool) (l : List Char)
    (h : ∀ c ∈ l, p c = false) : l.dropWhile p = l := by
  cases l with
  | nil => rfl
  | cons c cs =>
    rw [List.dropWhile_cons, if_neg (by simp [h c (List.mem_cons_self c cs)])]

theorem trimList_eq_self_of_all (l : List Char) (h : ∀ c ∈ l, isJsWs c = false) :
    trimList l = l := by
  rw [trimList_eq_rdrop, dropWhile_eq_self_of_all isJsWs l h, List.rdropWhile,
    dropWhile_eq_self_of_all isJsWs l.reverse (fun c hc => h c (List.mem_reverse.mp hc)),
    List.reverse_reverse]

theorem trimList_ne_nil_of_mem (l : List Char) (c : Char) (hc : c ∈ l)
    (hw : isJsWs c = false) : trimList l ≠ [] := by
  intro h
  have := (trimList_eq_nil_iff l).mp h c hc
  rw [hw] at this
  exact Bool.false_ne_true this

/-! ### The sanitizer is the identity on clean, trimmed strings -/

theorem foldl_pass_id {α : Type} (pass : α → List Char → List Char) :
    ∀ (L : List α) (l : List Char), (∀ a ∈ L, pass a l = l) →
      L.foldl (fun s a => pass a s) l = l := by
  intro L
  induction L with
  | nil => intro l _; rfl
  | cons a as ih =>
    intro l h
    rw [List.foldl_cons, h a (by simp)]
    exact ih l (fun b hb => h b (by simp [hb]))

theorem schemesStage_of_clean (l : List Char)
    (h : ∀ sch ∈ DANGEROUS_SCHEMES, NoMatch (matchScheme sch) l) :
    schemesStage l = l :=
  foldl_pass_id schemePass DANGEROUS_SCHEMES l fun sch hs =>
    untilStable_of_id _ _ (replaceAll_of_noMatch _ _ (h sch hs))

theorem tagsStage_of_clean (l : List Char)
    (h : ∀ t ∈ DANGEROUS_TAGS, NoMatch (matchOpenTag t) l ∧ NoMatch (matchCloseTag t) l) :
    tagsStage l = l :=
  foldl_pass_id tagPass DANGEROUS_TAGS l fun t ht =>
    untilStable_of_id _ _ (by
      rw [tagStep, replaceAll_of_noMatch _ _ (h t ht).1,
         replaceAll_of_noMatch _ _ (h t ht).2])

theorem bodyPass_of_clean (l : List Char)
    (h1 : NoMatch (matchBody scriptLits) l) (h2 : NoMatch (matchBody styleLits) l) :
    bodyPass l = l :=
  untilStable_of_id _ _ (by
    rw [bodyStep, replaceAll_of_noMatch _ _ h1, replaceAll_of_noMatch _ _ h2])

theorem handlerStage_of_clean (l : List Char)
    (h1 : NoMatch matchHandlerQuoted l) (h2 : NoMatch matchHandlerBare l) :
    handlerStage l = l := by
  rw [handlerStage, replaceAll_of_noMatch _ _ h1, replaceAll_of_noMatch _ _ h2]

theorem sanitizeList_of_clean (l : List Char)
    (h1 : ∀ sch ∈ DANGEROUS_SCHEMES, NoMatch (matchScheme sch) l)
    (h2 : ∀ t ∈ DANGEROUS_TAGS, NoMatch (matchOpenTag t) l ∧ NoMatch (matchCloseTag t) l)
    (h3 : NoMatch (matchBody scriptLits) l) (h4 : NoMatch (matchBody styleLits) l)
    (h5 : NoMatch matchHandlerQuoted l) (h6 : NoMatch matchHandlerBare l)
    (ht : trimList l = l) : sanitizeList l = l := by
  rw [sanitizeList, schemesStage_of_clean l h1, tagsStage_of_clean l h2,
    bodyPass_of_clean l h3 h4, handlerStage_of_clean l h5 h6, ht]

theorem noMatchB_noMatch (m : List Char → Option Nat) (l : List Char)
    (h : noMatchB m l = true) : NoMatch m l := by
  intro i
  have hall := List.all_eq_true.mp h
  by_cases hi : i ≤ l.length
  · have := hall i (List.mem_range.mpr (by omega))
    simpa [Option.isNone_iff_eq_none] using this
  · have hlast := hall l.length (List.mem_range.mpr (by omega))
    rw [List.drop_eq_nil_of_le (le_refl l.length)] at hlast
    rw [List.drop_eq_nil_of_le (by omega)]
    simpa [Option.isNone_iff_eq_none] using hlast

theorem cleanB_parts (l : List Char) (h : cleanB l = true) :
    (∀ sch ∈ DANGEROUS_SCHEMES, NoMatch (matchScheme sch) l) ∧
    (∀ t ∈ DANGEROUS_TAGS, NoMatch (matchOpenTag t) l ∧ NoMatch (matchCloseTag t) l) ∧
    NoMatch (matchBody scriptLits) l ∧ NoMatch (matchBody styleLits) l ∧
    NoMatch matchHandlerQuoted l ∧ NoMatch matchHandlerBare l := by
  rw [cleanB] at h
  simp only [Bool.and_eq_true] at h
  obtain ⟨⟨⟨⟨⟨hsch, htag⟩, hbs⟩, hbt⟩, hq⟩, hb⟩ := h
  refine ⟨?_, ?_, ?_, ?_, ?_, ?_⟩
  · intro sch hs
    exact noMatchB_noMatch _ _ ((List.all_eq_true.mp (by rw [schemesClean] at hsch; exact hsch)) sch hs)
  · intro t ht
    have := (List.all_eq_true.mp htag) t ht
    simp only [Bool.and_eq_true] at this
    exact ⟨noMatchB_noMatch _ _ this.1, noMatchB_noMatch _ _ this.2⟩
  · exact noMatchB_noMatch _ _ hbs
  · exact noMatchB_noMatch _ _ hbt
  · exact noMatchB_noMatch _ _ hq
  · exact noMatchB_noMatch _ _ hb

/-! ### The sanitizer leaves all-letter strings unchanged -/

theorem drop_replicate_a (i : Nat) :
    ∀ n : Nat, (List.replicate n 'a').drop i = List.replicate (n - i) 'a' := by
  induction i with
  | zero => intro n; simp
  | succ i ih =>
    intro n
    cases n with
    | zero => simp
    | succ n =>
      rw [List.replicate_succ, List.drop_succ_cons, ih n]
      congr 1
      omega

theorem wsCount_replicate_a (n : Nat) : wsCount (List.replicate n 'a') = 0 := by
  cases n with
  | zero => rfl
  | succ k =>
    rw [wsCount, List.replicate_succ, List.takeWhile_cons]
    norm_num [show isJsWs 'a' = false from by decide]

theorem matchScheme_replicate_a (p : Char) (ps : List Char) (hp : lowerEq p 'a' = false)
    (n : Nat) : matchScheme (p :: ps) (List.replicate n 'a') = none := by
  rw [matchScheme]
  simp only [wsCount_replicate_a, List.drop_zero]
  cases n with
  | zero => rfl
  | succ k =>
    rw [List.replicate_succ]
    simp [hp]

theorem matchOpenTag_replicate_a (tag : List Char) (n : Nat) :
    matchOpenTag tag (List.replicate n 'a') = none := by
  cases n with
  | zero => rfl
  | succ k =>
    rw [List.replicate_succ, matchOpenTag]
    rw [if_neg (by decide)]

theorem matchCloseTag_replicate_a (tag : List Char) (n : Nat) :
    matchCloseTag tag (List.replicate n 'a') = none := by
  cases n with
  | zero => rfl
  | succ k =>
    rw [List.replicate_succ, matchCloseTag]
    rw [if_neg (by decide)]

theorem matchOpenLoose_replicate_a (tag : List Char) (n : Nat) :
    matchOpenLoose tag (List.replicate n 'a') = none := by
  cases n with
  | zero => rfl
  | succ k =>
    rw [List.replicate_succ, matchOpenLoose]
    rw [if_neg (by decide)]

theorem matchBody_replicate_a (tag : List Char) (n : Nat) :
    matchBody tag (List.replicate n 'a') = none := by
  rw [matchBody, matchOpenLoose_replicate_a]

theorem matchHandlerQuoted_replicate_a (n : Nat) :
    matchHandlerQuoted (List.replicate n 'a') = none := by
  rw [matchHandlerQuoted]
  simp [wsCount_replicate_a]

theorem matchHandlerBare_replicate_a (n : Nat) :
    matchHandlerBare (List.replicate n 'a') = none := by
  rw [matchHandlerBare]
  simp [wsCount_replicate_a]

theorem sanitizeList_replicate_a (n : Nat) :
    sanitizeList (List.replicate n 'a') = List.replicate n 'a' := by
  apply sanitizeList_of_clean
  · intro sch hs i
    rw [drop_replicate_a]
    simp only [DANGEROUS_SCHEMES, List.mem_cons, List.not_mem_nil, or_false] at hs
    rcases hs with rfl | rfl | rfl | rfl <;>
      exact matchScheme_replicate_a _ _ (by decide) _
  · intro t _
    refine ⟨fun i => ?_, fun i => ?_⟩ <;> rw [drop_replicate_a]
    · exact matchOpenTag_replicate_a t _
    · exact matchCloseTag_replicate_a t _
  · intro i; rw [drop_replicate_a]; exact matchBody_replicate_a _ _
  · intro i; rw [drop_replicate_a]; exact matchBody_replicate_a _ _
  · intro i; rw [drop_replicate_a]; exact matchHandlerQuoted_replicate_a _
  · intro i; rw [drop_replicate_a]; exact matchHandlerBare_replicate_a _
  · exact trimList_eq_self_of_all _ (fun c hc => by
      rw [(List.mem_replicate.mp hc).2]; decide)

theorem mk_replicate_ne_empty (n : Nat) :
    String.mk (List.replicate (n + 1) 'a') ≠ "" := by
  intro h
  have : List.replicate (n + 1) 'a' = "".data := congrArg String.data h
  simp at this

theorem sanitize_replicate_a (n : Nat) :
    sanitizeInput (String.mk (List.replicate (n + 1) 'a')) =
      String.mk (List.replicate (n + 1) 'a') := by
  rw [sanitizeInput, if_neg (mk_replicate_ne_empty n)]
  exact congrArg String.mk (sanitizeList_replicate_a (n + 1))

/-! ### Helpers about the chat validator -/

theorem isJsWs_a : isJsWs 'a' = false := by decide

theorem trimList_replicate_a (n : Nat) :
    trimList (List.replicate n 'a') = List.replicate n 'a' :=
  trimList_eq_self_of_all _ (fun c hc => by rw [(List.mem_replicate.mp hc).2]; exact isJsWs_a)

theorem validateChat_replicate_long (n : Nat) :
    validateChatInput (String.mk (List.replicate (n + 4001) 'a')) =
      ⟨false, some "Message too long (maximum 4000 characters)"⟩ := by
  have h1 : n + 4001 = n + 4000 + 1 := by omega
  simp only [validateChatInput, h1, sanitize_replicate_a (n + 4000)]
  have hc1 : ¬(String.mk (List.replicate (n + 4000 + 1) 'a') = "" ∨
      (trimList (String.mk (List.replicate (n + 4000 + 1) 'a')).data).length = 0) := by
    push_neg
    refine ⟨mk_replicate_ne_empty _, ?_⟩
    show (trimList (List.replicate (n + 4000 + 1) 'a')).length ≠ 0
    rw [trimList_replicate_a, List.length_replicate]
    omega
  rw [if_neg hc1, if_pos]
  show 4000 < (List.replicate (n + 4000 + 1) 'a').length
  rw [List.length_replicate]
  omega

theorem validateChat_error_cases (x : String) :
    (validateChatInput x).error = none ∨
    (validateChatInput x).error = some "Message cannot be empty" ∨
    (validateChatInput x).error = some "Message too long (maximum 4000 characters)" ∨
    (validateChatInput x).error = some "Message contains too many special characters" ∨
    (validateChatInput x).error = some "Message contains excessive repeated characters" := by
  simp only [validateChatInput]
  split
  · exact Or.inr (Or.inl rfl)
  · split
    · exact Or.inr (Or.inr (Or.inl rfl))
    · split
      · exact Or.inr (Or.inr (Or.inr (Or.inl rfl)))
      · split
        · exact Or.inr (Or.inr (Or.inr (Or.inr rfl)))
        · exact Or.inl rfl

theorem emptyCond_iff (s : String) :
    (s = "" ∨ (trimList s.data).length = 0) ↔ trimList s.data = [] := by
  constructor
  · rintro (rfl | h)
    · rfl
    · exact List.length_eq_zero.mp h
  · intro h
    right
    rw [h]
    rfl

/-- The floating-point comparison `count / length > 0.5` of the source, read as the exact
rational comparison, is the integer comparison used in the embedding of the code. -/
theorem ratioCond_iff (c n : Nat) (hn : 0 < n) :
    ((1 : ℚ) / 2 < (c : ℚ) / (n : ℚ)) ↔ n < 2 * c := by
  rw [div_lt_div_iff₀ (by norm_num) (by exact_mod_cast hn)]
  constructor
  · intro h
    have h2 : (n : ℚ) < 2 * c := by linarith
    exact_mod_cast h2
  · intro h
    have h2 : (n : ℚ) < 2 * c := by exact_mod_cast h
    linarith

theorem hasRepeatedChars_eq_specRun (l : List Char) : hasRepeatedChars l = specRun l := by
  unfold specRun
  induction l with
  | nil => rfl
  | cons c cs ih => rw [hasRepeatedChars, List.tails_cons, List.any_cons, ih]

/-! ### Equivalence of the validators with their claim-worded formulations -/

theorem validateChatInput_eq_spec (input : String) :
    validateChatInput input = specChatInput input := by
  simp only [validateChatInput, specChatInput]
  by_cases h1 : sanitizeInput input = "" ∨ (trimList (sanitizeInput input).data).length = 0
  · rw [if_pos h1, if_pos ((emptyCond_iff _).mp h1)]
  · rw [if_neg h1, if_neg (fun hh => h1 ((emptyCond_iff _).mpr hh))]
    by_cases h2 : 4000 < (sanitizeInput input).data.length
    · rw [if_pos h2, if_pos h2]
    · rw [if_neg h2, if_neg h2]
      have hn : 0 < (sanitizeInput input).data.length := by
        rcases Nat.eq_zero_or_pos (sanitizeInput input).data.length with h0 | h0
        · exfalso
          apply h1
          right
          rw [List.length_eq_zero.mp h0]
          rfl
        · exact h0
      have hr := ratioCond_iff (specialCount (sanitizeInput input).data)
        (sanitizeInput input).data.length hn
      by_cases h3 : (sanitizeInput input).data.length < 2 * specialCount (sanitizeInput input).data
      · rw [if_pos h3, if_pos (hr.mpr h3)]
      · rw [if_neg h3, if_neg (fun hh => h3 (hr.mp hh))]
        rw [hasRepeatedChars_eq_specRun]

theorem validateUsername_eq_spec (s : String) : validateUsername s = specUsernameV s := by
  rw [validateUsername, specUsernameV]
  by_cases h1 : s = "" ∨ (trimList s.data).length = 0
  · rw [if_pos h1, if_pos ((emptyCond_iff _).mp h1)]
  · rw [if_neg h1, if_neg (fun hh => h1 ((emptyCond_iff _).mpr hh))]
    by_cases h2 : s.data.length < 3
    · rw [if_pos h2, if_pos h2]
    · rw [if_neg h2, if_neg h2]
      by_cases h3 : 50 < s.data.length
      · rw [if_pos h3, if_pos h3]
      · rw [if_neg h3, if_neg h3]
        have hne : s.data ≠ [] := by
          intro hh
          apply h1
          right
          rw [hh]
          rfl
        have htest : usernameTest s.data = s.data.all isUserChar := by
          rw [usernameTest, List.isEmpty_eq_false.mpr hne]
          rfl
        have hiff : (usernameTest s.data = false) ↔ ((s.data.any fun c => !isUserChar c) = true) := by
          rw [htest]
          simp only [List.all_eq_false, List.any_eq_true, Bool.not_eq_true,
            Bool.not_eq_true']
        by_cases h4 : usernameTest s.data = false
        · rw [if_pos h4, if_pos (hiff.mp h4)]
        · rw [if_neg h4, if_neg (fun hh => h4 (hiff.mpr hh))]

theorem validatePassword_eq_spec (s : String) : validatePassword s = specPasswordV s := by
  rw [validatePassword, specPasswordV]
  have hiff : (s = "" ∨ s.data.length = 0) ↔ s.data = [] := by
    constructor
    · rintro (rfl | h)
      · rfl
      · exact List.length_eq_zero.mp h
    · intro h
      right
      rw [h]
      rfl
  by_cases h1 : s = "" ∨ s.data.length = 0
  · rw [if_pos h1, if_pos (hiff.mp h1)]
  · rw [if_neg h1, if_neg (fun hh => h1 (hiff.mpr hh))]

/-! ### Characterizing the email regex -/

theorem atSplit_eq : ∀ l a d : List Char, atSplit l = some (a, d) →
    l = a ++ '@' :: d ∧ '@' ∉ a := by
  intro l
  induction l with
  | nil => intro a d h; simp [atSplit] at h
  | cons c cs ih =>
    intro a d h
    rw [atSplit] at h
    by_cases hc : c = '@'
    · rw [if_pos hc] at h
      obtain ⟨h1, h2⟩ := Prod.ext_iff.mp (Option.some.inj h)
      simp only at h1 h2
      subst h1
      subst h2
      subst hc
      exact ⟨rfl, by simp⟩
    · rw [if_neg hc, Option.map_eq_some'] at h
      obtain ⟨⟨a1, d1⟩, hsp, heq⟩ := h
      obtain ⟨h1, h2⟩ := Prod.ext_iff.mp heq
      simp only at h1 h2
      subst h1
      subst h2
      obtain ⟨ihl, ihm⟩ := ih a1 d1 hsp
      constructor
      · rw [List.cons_append, ← ihl]
      · intro hmem
        rcases List.mem_cons.mp hmem with h3 | h3
        · exact hc h3.symm
        · exact ihm h3

theorem atSplit_append (a d : List Char) (ha : '@' ∉ a) :
    atSplit (a ++ '@' :: d) = some (a, d) := by
  induction a with
  | nil => simp [atSplit]
  | cons c cs ih =>
    rw [List.cons_append, atSplit,
      if_neg (fun h => ha (List.mem_cons.mpr (Or.inl h.symm))),
      ih (fun h => ha (List.mem_cons_of_mem c h))]
    rfl

theorem dotNotLast_iff : ∀ d : List Char,
    dotNotLast d = true ↔ ∃ b c, d = b ++ '.' :: c ∧ c ≠ [] := by
  intro d
  induction d with
  | nil =>
    constructor
    · intro h; simp [dotNotLast] at h
    · rintro ⟨b, c, h, hc⟩
      exact absurd h (by simp)
  | cons e rest ih =>
    rw [dotNotLast]
    constructor
    · intro h
      simp only [Bool.or_eq_true, Bool.and_eq_true, decide_eq_true_eq, Bool.not_eq_true',
        List.isEmpty_eq_false] at h
      rcases h with ⟨he, hr⟩ | h1
      · exact ⟨[], rest, by rw [he]; rfl, hr⟩
      · obtain ⟨b, c, hbc, hc⟩ := ih.mp h1
        exact ⟨e :: b, c, by rw [hbc]; rfl, hc⟩
    · rintro ⟨b, c, hbc, hc⟩
      simp only [Bool.or_eq_true, Bool.and_eq_true, decide_eq_true_eq, Bool.not_eq_true',
        List.isEmpty_eq_false]
      cases b with
      | nil =>
        simp only [List.nil_append, List.cons.injEq] at hbc
        exact Or.inl ⟨hbc.1, by rw [hbc.2]; exact hc⟩
      | cons b0 bs =>
        right
        apply ih.mpr
        rw [List.cons_append] at hbc
        injection hbc with h1 h2
        exact ⟨bs, c, h2, hc⟩

theorem interiorDot_iff (d : List Char) :
    interiorDot d = true ↔ ∃ b c, d = b ++ '.' :: c ∧ b ≠ [] ∧ c ≠ [] := by
  cases d with
  | nil =>
    constructor
    · intro h; simp [interiorDot] at h
    · rintro ⟨b, c, h, hb, hc⟩
      exact absurd h (by simp)
  | cons e rest =>
    rw [show interiorDot (e :: rest) = dotNotLast rest from rfl, dotNotLast_iff]
    constructor
    · rintro ⟨b, c, hbc, hc⟩
      exact ⟨e :: b, c, by rw [List.cons_append, hbc], by simp, hc⟩
    · rintro ⟨b, c, hbc, hb, hc⟩
      cases b with
      | nil => exact absurd rfl hb
      | cons b0 bs =>
        rw [List.cons_append] at hbc
        injection hbc with h1 h2
        exact ⟨bs, c, h2, hc⟩

theorem emailMatches_iff (l : List Char) : emailMatches l = true ↔ EmailShape l := by
  rw [emailMatches]
  constructor
  · intro h
    cases hsp : atSplit l with
    | none => rw [hsp] at h; simp at h
    | some p =>
      obtain ⟨a, d⟩ := p
      rw [hsp] at h
      simp only [Bool.and_eq_true] at h
      obtain ⟨⟨⟨hne, hoka⟩, hokd⟩, hdot⟩ := h
      obtain ⟨heq, _⟩ := atSplit_eq l a d hsp
      obtain ⟨b, c, hd, hb, hc⟩ := (interiorDot_iff d).mp hdot
      refine ⟨a, b, c, ?_, ?_, hb, hc, ?_, ?_⟩
      · rw [heq, hd]
      · intro hh; rw [hh] at hne; simp at hne
      · exact fun x hx => List.all_eq_true.mp hoka x hx
      · rw [← hd]; exact fun x hx => List.all_eq_true.mp hokd x hx
  · rintro ⟨a, b, c, rfl, ha, hb, hc, hoka, hokd⟩
    have hna : '@' ∉ a := fun hmem => absurd (hoka '@' hmem) (by decide)
    rw [atSplit_append a _ hna]
    simp only [Bool.and_eq_true]
    refine ⟨⟨⟨?_, ?_⟩, ?_⟩, ?_⟩
    · simpa using ha
    · exact List.all_eq_true.mpr hoka
    · exact List.all_eq_true.mpr hokd
    · exact (interiorDot_iff _).mpr ⟨b, c, rfl, hb, hc⟩

theorem specEmailShape_iff (l : List Char) : specEmailShape l = true ↔ EmailShape l := by
  rw [specEmailShape, List.any_eq_true]
  constructor
  · rintro ⟨i, hi, hmatch⟩
    rw [List.mem_range] at hi
    cases hd : l.drop i with
    | nil => rw [hd] at hmatch; simp at hmatch
    | cons c d =>
      rw [hd] at hmatch
      simp only [Bool.and_eq_true, decide_eq_true_eq] at hmatch
      obtain ⟨⟨⟨⟨hc, hne⟩, hoka⟩, hokd⟩, hdom⟩ := hmatch
      rw [List.any_eq_true] at hdom
      obtain ⟨j, hj, hmatch2⟩ := hdom
      rw [List.mem_range] at hj
      cases hdd : d.drop j with
      | nil => rw [hdd] at hmatch2; simp at hmatch2
      | cons e c2 =>
        rw [hdd] at hmatch2
        simp only [Bool.and_eq_true, decide_eq_true_eq] at hmatch2
        obtain ⟨⟨he, hbne⟩, hc2ne⟩ := hmatch2
        have hdsplit : d = d.take j ++ '.' :: c2 := by
          conv_lhs => rw [← List.take_append_drop j d]
          rw [hdd, he]
        refine ⟨l.take i, d.take j, c2, ?_, ?_, ?_, ?_, ?_, ?_⟩
        · conv_lhs => rw [← List.take_append_drop i l]
          rw [hd, hc]
          conv_lhs => rw [hdsplit]
        · intro hh; rw [hh] at hne; simp at hne
        · intro hh; rw [hh] at hbne; simp at hbne
        · intro hh; rw [hh] at hc2ne; simp at hc2ne
        · exact fun x hx => List.all_eq_true.mp hoka x hx
        · intro x hx
          apply List.all_eq_true.mp hokd x
          rw [hdsplit]
          exact hx
  · rintro ⟨a, b, c, rfl, ha, hb, hc, hoka, hokd⟩
    refine ⟨a.length, ?_, ?_⟩
    · rw [List.mem_range, List.length_append, List.length_cons]
      omega
    · rw [List.drop_left]
      simp only [Bool.and_eq_true, decide_eq_true_eq]
      refine ⟨⟨⟨⟨trivial, ?_⟩, ?_⟩, ?_⟩, ?_⟩
      · rw [List.take_left]
        simpa using ha
      · rw [List.take_left]
        exact List.all_eq_true.mpr hoka
      · exact List.all_eq_true.mpr hokd
      · rw [List.any_eq_true]
        refine ⟨b.length, ?_, ?_⟩
        · rw [List.mem_range, List.length_append, List.length_cons]
          omega
        · rw [List.drop_left]
          simp only [Bool.and_eq_true, decide_eq_true_eq]
          refine ⟨⟨trivial, ?_⟩, ?_⟩
          · rw [List.take_left]
            simpa using hb
          · simpa using hc

theorem emailMatches_eq_specShape (l : List Char) : emailMatches l = specEmailShape l := by
  cases hb : specEmailShape l with
  | true => exact (emailMatches_iff l).mpr ((specEmailShape_iff l).mp hb)
  | false =>
    cases hm : emailMatches l with
    | false => rfl
    | true =>
      have h2 := (specEmailShape_iff l).mpr ((emailMatches_iff l).mp hm)
      rw [hb] at h2
      exact (Bool.false_ne_true h2).elim

theorem EmailShape_count (l : List Char) (h : EmailShape l) : l.count '@' = 1 := by
  obtain ⟨a, b, c, rfl, ha, hb, hc, hoka, hokd⟩ := h
  have hat : '@' ∉ a := fun hmem => absurd (hoka '@' hmem) (by decide)
  have hat2 : '@' ∉ b ++ '.' :: c := fun hmem => absurd (hokd '@' hmem) (by decide)
  rw [List.count_append, List.count_cons_self,
    List.count_eq_zero.mpr hat, List.count_eq_zero.mpr hat2]

theorem EmailShape_trim_ne (l : List Char) (h : EmailShape l) : trimList l ≠ [] := by
  obtain ⟨a, b, c, rfl, _, _, _, _, _⟩ := h
  exact trimList_ne_nil_of_mem _ '@' (by simp) (by decide)

/-! ### Remaining helpers -/

theorem mk_data (s : String) : String.mk s.data = s := by
  cases s
  rfl

theorem data_mk (l : List Char) : (String.mk l).data = l := rfl

theorem sanitize_trim_invariant (x : String) :
    trimList (sanitizeInput x).data = (sanitizeInput x).data := by
  rw [sanitizeInput]
  by_cases hx : x = ""
  · rw [if_pos hx]; rfl
  · rw [if_neg hx, data_mk, sanitizeList]
    exact trimList_idem _

/-! ### The claims -/

/-- Claim C1, corrected.  `sanitizeInput` is not idempotent in general (see
`C1_counterexample`): a removal of a later category can reassemble a pattern of an
earlier category, which the earlier, already finished passes no longer revisit.
Idempotence does hold on every input whose sanitized output is free of all the
dangerous patterns. -/
theorem C1_sanitize_idempotent_on_clean (x : String)
    (h : cleanB (sanitizeInput x).data = true) :
    sanitizeInput (sanitizeInput x) = sanitizeInput x := by
  by_cases hy : sanitizeInput x = ""
  · rw [hy]; rfl
  · rw [sanitizeInput, if_neg hy]
    obtain ⟨hs1, hs2, hs3, hs4, hs5, hs6⟩ := cleanB_parts _ h
    rw [sanitizeList_of_clean _ hs1 hs2 hs3 hs4 hs5 hs6 (sanitize_trim_invariant x)]

/-- Witness for C1: a concrete clean input on which idempotence holds. -/
theorem C1_witness :
    cleanB (sanitizeInput "hello").data = true ∧
    sanitizeInput (sanitizeInput "hello") = sanitizeInput "hello" :=
  ⟨by decide, C1_sanitize_idempotent_on_clean "hello" (by decide)⟩

/-- Counterexample to C1 as stated: removing `vbscript:` out of
`javvbscript:ascript:x` reassembles `javascript:x`, whose scheme only a second run of
`sanitizeInput` removes, so `sanitize(sanitize(x)) ≠ sanitize(x)`. -/
theorem C1_counterexample :
    sanitizeInput (sanitizeInput "javvbscript:ascript:x") ≠
      sanitizeInput "javvbscript:ascript:x" := by
  decide

/-- Claim C2, corrected.  The two concrete scheme examples of the claim hold: both
sanitize to `alert(1)`, which contains no match of any dangerous-scheme pattern.  The
universal "no listed pattern survives" part is false, see `C2_counterexample`. -/
theorem C2_scheme_examples :
    sanitizeInput "javascript:alert(1)" = "alert(1)" ∧
    sanitizeInput "java\nscript:alert(1)" = "alert(1)" ∧
    schemesClean ("alert(1)" : String).data = true := by
  decide

/-- Counterexample to C2 as stated: the tag pass removes `<meta>` from
`java<meta>script:alert(1)` and thereby reassembles a `javascript:` scheme that
survives into the output of `sanitizeInput`. -/
theorem C2_counterexample :
    sanitizeInput "java<meta>script:alert(1)" = "javascript:alert(1)" ∧
    schemesClean ("javascript:alert(1)" : String).data = false := by
  decide

/-- Claim C3, corrected.  The scheme, tag and element-body categories are indeed
repeat-until-fixed-point passes: their loop outputs are fixed points of the
respective substitutions.  The fourth category (inline event handlers,
validation.ts:88-89) is applied only once, and on the concrete input below the
single application does not reach a fixed point: one further application of the
handler substitutions would still shorten the sanitized output. -/
theorem C3_fixed_point_passes :
    (∀ sch l, schemeStep sch (schemePass sch l) = schemePass sch l) ∧
    (∀ tag l, tagStep tag (tagPass tag l) = tagPass tag l) ∧
    (∀ l, bodyStep (bodyPass l) = bodyPass l) ∧
    (handlerStage ((sanitizeInput "a onx onq=v =\"u\"").data)).length <
      ((sanitizeInput "a onx onq=v =\"u\"").data).length :=
  ⟨schemePass_fix, tagPass_fix, bodyPass_fix, by decide⟩

/-- Counterexample to C3 as stated: the event-handler category is not applied to a
fixed point; the output of `sanitizeInput` on this input is changed by one more
application of the event-handler substitutions (removing ` onq=v` unmasked
` onx ="u"`, which survives). -/
theorem C3_counterexample :
    handlerStage ((sanitizeInput "a onx onq=v =\"u\"").data) ≠
      (sanitizeInput "a onx onq=v =\"u\"").data := by
  decide

/-- Claim C4, confirmed.  For every tag `T` of the blocked list,
`sanitizeInput ("<" ++ T ++ ">evil</" ++ T ++ ">")` contains neither `<T` nor `</T`,
case-insensitively. -/
theorem C4_blocked_tags :
    DANGEROUS_TAGS.all (fun t =>
      !(hasSubCI ('<' :: t)
        (sanitizeInput (String.mk ('<' :: t ++ '>' :: "evil</".data ++ t ++ ['>']))).data) &&
      !(hasSubCI ('<' :: '/' :: t)
        (sanitizeInput (String.mk ('<' :: t ++ '>' :: "evil</".data ++ t ++ ['>']))).data)) = true := by
  decide

/-- Claim C5, corrected.  `validateChatInput` evaluates the four rules in order on the
sanitized string exactly as the claim describes them — with one amendment to rule 4:
the repeated character must not be a line terminator (`\n`, `\r`, U+2028, U+2029),
since the regex `.` of `(.)\1{10,}` does not match those; see `C5_counterexample`.
The boundary examples hold: ten `a`s are valid, eleven are rejected. -/
theorem C5_chat_rules :
    (∀ x, validateChatInput x = specChatInput x) ∧
    validateChatInput (String.mk (List.replicate 10 'a')) = ⟨true, none⟩ ∧
    validateChatInput (String.mk (List.replicate 11 'a')) =
      ⟨false, some "Message contains excessive repeated characters"⟩ :=
  ⟨validateChatInput_eq_spec, by decide, by decide⟩

/-- Counterexample to C5 as stated: a run of eleven newlines is an unbroken run of
length at least 11 of a single character, yet the message is accepted, because the
regex dot never matches a line terminator. -/
theorem C5_counterexample :
    specRunAny ((sanitizeInput (String.mk ('a' :: (List.replicate 11 '\n' ++ ['b'])))).data) = true ∧
    validateChatInput (String.mk ('a' :: (List.replicate 11 '\n' ++ ['b']))) = ⟨true, none⟩ := by
  decide

/-- Claim C6, confirmed.  `validateUsername` implements exactly the ordered,
short-circuiting rule list of the claim (required, length at least 3, length at most
50, character class), with the exact messages, and judges the original string
without transforming it. -/
theorem C6_username_rules : ∀ s, validateUsername s = specUsernameV s :=
  validateUsername_eq_spec

/-- Claim C7, confirmed.  `validatePassword` implements exactly the ordered rule list
of the claim (required for the empty string, length at least 8, length at most 128),
and enforces no character-class rule: every string of length 8 to 128 is accepted
regardless of its characters. -/
theorem C7_password_rules :
    (∀ s, validatePassword s = specPasswordV s) ∧
    (∀ s : String, 8 ≤ s.data.length → s.data.length ≤ 128 →
      validatePassword s = ⟨true, none⟩) := by
  refine ⟨validatePassword_eq_spec, fun s h1 h2 => ?_⟩
  rw [validatePassword]
  have hc1 : ¬(s = "" ∨ s.data.length = 0) := by
    push_neg
    constructor
    · intro hh
      subst hh
      exact absurd h1 (by decide)
    · omega
  rw [if_neg hc1, if_neg (by omega), if_neg (by omega)]

/-- Witness for C7: a concrete 8-character password of letters only is accepted. -/
theorem C7_witness : validatePassword "abcdefgh" = ⟨true, none⟩ :=
  C7_password_rules.2 "abcdefgh" (by decide) (by decide)

/-- Claim C8, corrected.  `validateEmail` checks, in order: required, shape, length
at most 254, accept — with the claim's shape amended to the shape of the regex
`^[^\s@]+@[^\s@]+\.[^\s@]+$`: local part and domain must also be free of `@`, and
the domain must split at some `.` into two nonempty halves (so a trailing-dot domain
is rejected, see `C8_counterexample`).  The claim's concrete examples hold. -/
theorem C8_email_rules :
    (∀ s, validateEmail s = specEmailV s) ∧
    validateEmail "not-an-email" = ⟨false, some "Invalid email format"⟩ ∧
    validateEmail "user@example.com" = ⟨true, none⟩ := by
  refine ⟨?_, by decide, by decide⟩
  intro s
  rw [validateEmail, specEmailV]
  by_cases h1 : s = "" ∨ (trimList s.data).length = 0
  · rw [if_pos h1, if_pos ((emptyCond_iff _).mp h1)]
  · rw [if_neg h1, if_neg (fun hh => h1 ((emptyCond_iff _).mpr hh)),
      emailMatches_eq_specShape]

/-- Counterexample to C8 as stated: `a@b.` has a nonempty no-whitespace local part,
an `@`, and a nonempty no-whitespace domain containing a `.` after the `@`, so the
claim's wording would accept it, but the code rejects it (the regex requires a
nonempty run after the last matched dot). -/
theorem C8_counterexample :
    specEmailShapeLoose ("a@b." : String).data = true ∧
    validateEmail "a@b." = ⟨false, some "Invalid email format"⟩ := by
  decide

/-- Claim C9, corrected.  The implementation imposes no raw-input size cap and has no
"input too large" verdict: the error of `validateChatInput` is always one of the four
rule-specific messages (or absent), and arbitrarily long all-letter inputs are fully
processed by the sanitizer and judged by the ordinary rules (an input of length
`n + 4001` is rejected by the ordinary 4000-character rule, not by any distinct
size-cap verdict). -/
theorem C9_no_input_cap :
    (∀ x : String, (validateChatInput x).error = none ∨
      (validateChatInput x).error = some "Message cannot be empty" ∨
      (validateChatInput x).error = some "Message too long (maximum 4000 characters)" ∨
      (validateChatInput x).error = some "Message contains too many special characters" ∨
      (validateChatInput x).error = some "Message contains excessive repeated characters") ∧
    (∀ n : Nat, validateChatInput (String.mk (List.replicate (n + 4001) 'a')) =
      ⟨false, some "Message too long (maximum 4000 characters)"⟩) :=
  ⟨validateChat_error_cases, validateChat_replicate_long⟩

/-- Counterexample to C9 as stated: no bound `N` exists past which raw inputs are
rejected with a distinct "input too large" verdict — for every `N` the all-letter
input of length `N + 4001` is longer than `N` and yields an ordinary rule verdict. -/
theorem C9_counterexample :
    ¬ ∃ N : Nat, ∀ x : String, N < x.data.length →
      (validateChatInput x).error = some "input too large" := by
  rintro ⟨N, h⟩
  have hx := h (String.mk (List.replicate (N + 4001) 'a')) (by
    rw [data_mk, List.length_replicate]
    omega)
  rw [validateChat_replicate_long N] at hx
  exact absurd hx (by decide)

/-- Claim C10, confirmed.  `validateEmail` accepts exactly the strings matching
`^[^\s@]+@[^\s@]+\.[^\s@]+$` of length at most 254; consequently every string with
two or more `@` characters is rejected with "Invalid email format", in particular
`a@b@c.com`. -/
theorem C10_email_regex :
    (∀ s : String, (validateEmail s).valid = true ↔
      (emailMatches s.data = true ∧ s.data.length ≤ 254)) ∧
    (∀ s : String, 2 ≤ s.data.count '@' →
      validateEmail s = ⟨false, some "Invalid email format"⟩) ∧
    validateEmail "a@b@c.com" = ⟨false, some "Invalid email format"⟩ := by
  refine ⟨?_, ?_, by decide⟩
  · intro s
    rw [validateEmail]
    by_cases h1 : s = "" ∨ (trimList s.data).length = 0
    · rw [if_pos h1]
      constructor
      · intro hh
        exact absurd hh (by decide)
      · rintro ⟨hm, _⟩
        exact absurd ((emptyCond_iff s).mp h1)
          (EmailShape_trim_ne s.data ((emailMatches_iff _).mp hm))
    · rw [if_neg h1]
      by_cases h2 : emailMatches s.data = false
      · rw [if_pos h2]
        constructor
        · intro hh
          exact absurd hh (by decide)
        · rintro ⟨hm, _⟩
          rw [h2] at hm
          exact absurd hm (by decide)
      · rw [if_neg h2]
        have hm : emailMatches s.data = true := by
          cases hb : emailMatches s.data
          · exact absurd hb h2
          · rfl
        by_cases h3 : 254 < s.data.length
        · rw [if_pos h3]
          constructor
          · intro hh
            exact absurd hh (by decide)
          · rintro ⟨_, hl⟩
            omega
        · rw [if_neg h3]
          constructor
          · intro _
            exact ⟨hm, by omega⟩
          · intro _
            rfl
  · intro s hcount
    rw [validateEmail]
    have hmem : '@' ∈ s.data := List.count_pos_iff.mp (by omega)
    have hne : ¬(s = "" ∨ (trimList s.data).length = 0) := by
      intro hh
      exact trimList_ne_nil_of_mem s.data '@' hmem (by decide) ((emptyCond_iff s).mp hh)
    rw [if_neg hne]
    have hm : emailMatches s.data = false := by
      cases hb : emailMatches s.data
      · rfl
      · have := EmailShape_count s.data ((emailMatches_iff _).mp hb)
        omega
    rw [if_pos hm]

/-- Witness for C10: a concrete string with two `@` characters is rejected with the
format message. -/
theorem C10_witness : validateEmail "x@y@z" = ⟨false, some "Invalid email format"⟩ :=
  C10_email_regex.2.1 "x@y@z" (by decide)
